import Mathlib

/-!
# Verification of the generic-device-plugin fingerprint core

Shallow embedding of `device/fingerprint.go`: the discovery/grouping step
`writeFingerprintToChannel`, the group constructor
`deviceGroupFromFingerprintData`, and the timer-driven detection loop
`doFingerprint`, together with proofs of the specified properties.

Go maps (`map[string]...`) are embedded as association lists with
update-in-place insertion, so keys stay unique exactly as in a Go map;
the model fixes first-insertion order as the (in Go unspecified) map
iteration order, which is one admissible schedule.  The Go channel send
is embedded as an explicit list of emitted responses (empty or singleton
per call).
-/

/-- Modelled from the spec: the configured-device template (struct defined
outside the provided source file; fields and their use are visible in
`fingerprint.go` and §3 of the design document).  `Count` is a Go `int`. -/
structure ConfiguredDevice where
  «Type» : String
  Vendor : String
  Model : String
  Count : Int
deriving DecidableEq

/-- Modelled from the spec: the per-device record kept in the
identified-devices cache (struct defined outside the provided source file;
its construction from a template is visible in `fingerprint.go`). -/
structure GenericDevice where
  «Type» : String
  Vendor : String
  Model : String
deriving DecidableEq

/-- `fingerprintedDevice` from `fingerprint.go`: what discovery produces. -/
structure fingerprintedDevice where
  ID : String
  device : GenericDevice
deriving DecidableEq

/-- Modelled from the spec: the per-device summary emitted to the scheduler
(`device.Device` of the plugin SDK; the fields set in
`deviceGroupFromFingerprintData` are `ID`, `Healthy`, `HwLocality`). -/
structure Device where
  ID : String
  Healthy : Bool
  HwLocality : Option Unit
deriving DecidableEq

/-- Modelled from the spec: a named group of device summaries
(`device.DeviceGroup` of the plugin SDK, fields as set in
`deviceGroupFromFingerprintData`). -/
structure DeviceGroup where
  Vendor : String
  «Type» : String
  Name : String
  Devices : List Device
deriving DecidableEq

/-- Modelled from the spec: one snapshot (`device.FingerprintResponse`).
Group pointers may be nil in Go, hence `Option DeviceGroup` entries. -/
structure FingerprintResponse where
  Devices : List (Option DeviceGroup)
deriving DecidableEq

/-- Modelled from the spec: `device.NewFingerprint(groups...)`. -/
def NewFingerprint (groups : List (Option DeviceGroup)) : FingerprintResponse :=
  ⟨groups⟩

/-- The plugin state used by the fingerprint core: the configured template
list, the identified-devices cache (a Go map, embedded as an association
list with unique keys), and the fingerprint period. -/
structure GenericDevicePlugin where
  configuredDevices : List ConfiguredDevice
  identifiedDevices : List (String × GenericDevice)
  fingerprintPeriod : Nat
deriving DecidableEq

/-- Decimal digit rendering with explicit fuel (structural recursion so
that concrete instances compute); `fuel > n` suffices for the recursion
to bottom out. -/
def natToDigitsCore : Nat → Nat → List Char
  | 0, _ => []
  | fuel + 1, n =>
    if n < 10 then [Nat.digitChar n]
    else natToDigitsCore fuel (n / 10) ++ [Nat.digitChar (n % 10)]

/-- Decimal digit list of a natural number, embedding Go's
`fmt.Sprintf("%d", deviceIndex)` rendering (most significant digit first,
no sign, no padding). -/
def natToDigits (n : Nat) : List Char :=
  natToDigitsCore (n + 1) n

/-- Decimal string of a natural number (`%d`). -/
def natToString (n : Nat) : String :=
  ⟨natToDigits n⟩

/-- The ID string built at `fingerprint.go:55`:
`fmt.Sprintf("%s/%s/%s/%d", Type, Vendor, Model, deviceIndex)`. -/
def deviceID (cd : ConfiguredDevice) (deviceIndex : Nat) : String :=
  cd.«Type» ++ "/" ++ cd.Vendor ++ "/" ++ cd.Model ++ "/" ++ natToString deviceIndex

/-- The `Type/Vendor/Model` part shared by all IDs of one template. -/
def idStem (cd : ConfiguredDevice) : String :=
  cd.«Type» ++ "/" ++ cd.Vendor ++ "/" ++ cd.Model

/-- The effective replica count of `fingerprint.go:49-52`:
`count := configuredDevice.Count; if count == 0 { count = 1 }`. -/
def effectiveCount (cd : ConfiguredDevice) : Int :=
  if cd.Count = 0 then 1 else cd.Count

/-- The inner loop of `fingerprint.go:53-62`: one template expands to
`effectiveCount` concrete devices (a negative Go count yields none, since
`deviceIndex < count` fails immediately). -/
def expandDevice (cd : ConfiguredDevice) : List fingerprintedDevice :=
  (List.range (effectiveCount cd).toNat).map fun deviceIndex =>
    { ID := deviceID cd deviceIndex
      device := { «Type» := cd.«Type», Vendor := cd.Vendor, Model := cd.Model } }

/-- The outer discovery loop of `fingerprint.go:48-63`: append the
expansion of each configured template in list order. -/
def discoverDevices (cds : List ConfiguredDevice) : List fingerprintedDevice :=
  cds.foldl (fun acc cd => acc ++ expandDevice cd) []

/-- Go map insertion `m[k] = v` on the association-list embedding:
update the (unique) entry for `k` in place, or append a new entry. -/
def mapInsert : List (String × GenericDevice) → String → GenericDevice →
    List (String × GenericDevice)
  | [], k, v => [(k, v)]
  | e :: m, k, v => if e.1 = k then (k, v) :: m else e :: mapInsert m k v

/-- Go map lookup `m[k]` on the association-list embedding. -/
def mapLookup : List (String × GenericDevice) → String → Option GenericDevice
  | [], _ => none
  | e :: m, k => if e.1 = k then some e.2 else mapLookup m k

/-- Go map append-insert
`deviceListByDeviceName[name] = append(deviceListByDeviceName[name], dev)`
of `fingerprint.go:74-75`: extend the (unique) bucket for `k`, or create it. -/
def groupInsert : List (String × List fingerprintedDevice) → String →
    fingerprintedDevice → List (String × List fingerprintedDevice)
  | [], k, d => [(k, [d])]
  | b :: bs, k, d => if b.1 = k then (b.1, b.2 ++ [d]) :: bs else b :: groupInsert bs k d

/-- The bucket currently stored for model `m` (empty if absent). -/
def bucketVal : List (String × List fingerprintedDevice) → String →
    List fingerprintedDevice
  | [], _ => []
  | b :: bs, m => if b.1 = m then b.2 else bucketVal bs m

/-- The grouping loop of `fingerprint.go:72-77`: partition the discovered
devices by `Model` and record each one in the identified-devices cache. -/
def registerDevices (identified : List (String × GenericDevice))
    (ds : List fingerprintedDevice) :
    List (String × List fingerprintedDevice) × List (String × GenericDevice) :=
  ds.foldl (fun acc d => (groupInsert acc.1 d.device.Model d, mapInsert acc.2 d.ID d.device))
    ([], identified)

/-- `deviceGroupFromFingerprintData` of `fingerprint.go:89-112`: `nil` (here
`none`) on an empty device list, otherwise a group named `groupName` whose
`Vendor`/`Type` are copied from `deviceList[0]` and whose member summaries
are always healthy with no locality. -/
def deviceGroupFromFingerprintData (groupName : String)
    (deviceList : List fingerprintedDevice) : Option DeviceGroup :=
  match deviceList with
  | [] => none
  | d0 :: _ =>
    some { Vendor := d0.device.Vendor
           «Type» := d0.device.«Type»
           Name := groupName
           Devices := deviceList.map fun dev =>
             { ID := dev.ID, Healthy := true, HwLocality := none } }

/-- `writeFingerprintToChannel` of `fingerprint.go:39-87` (the lock is
irrelevant in the single-writer embedding): when the identified-devices
cache is empty, discover, group, cache, and emit one response; otherwise
do nothing.  Returns the new plugin state and the list of responses sent
on the channel during this call. -/
def writeFingerprintToChannel (d : GenericDevicePlugin) :
    GenericDevicePlugin × List FingerprintResponse :=
  if d.identifiedDevices.length == 0 then
    let discoveredDevices := discoverDevices d.configuredDevices
    let r := registerDevices d.identifiedDevices discoveredDevices
    let deviceGroups := r.1.map fun b => deviceGroupFromFingerprintData b.1 b.2
    ({ d with identifiedDevices := r.2 }, [NewFingerprint deviceGroups])
  else
    (d, [])

/-- One scheduler decision observed by the `select` in `doFingerprint`:
either the context is done, or the timer fires. -/
inductive LoopEvent
  | ctxDone
  | tick
deriving DecidableEq

/-- Observable actions of the detection loop: arming the timer with a
delay (`time.NewTimer` / `ticker.Reset`), emitting a response on the
channel, and closing the channel (`defer close(devices)`). -/
inductive LoopOutput
  | armed (delay : Nat)
  | emit (resp : FingerprintResponse)
  | closed
deriving DecidableEq

/-- The loop body of `doFingerprint` (`fingerprint.go:18-27`): each
iteration consumes one `select` outcome; `ctxDone` returns (running the
deferred close), `tick` re-arms the timer with the fingerprint period and
then runs `writeFingerprintToChannel` to completion.  An exhausted event
list is a truncated (still-running) trace. -/
def loopRun (period : Nat) :
    GenericDevicePlugin → List LoopEvent → List LoopOutput
  | _, [] => []
  | _, .ctxDone :: _ => [.closed]
  | d, .tick :: rest =>
    let s := writeFingerprintToChannel d
    .armed period :: (s.2.map .emit ++ loopRun period s.1 rest)

/-- `doFingerprint` of `fingerprint.go:12-28`: arm the timer with zero
delay (`time.NewTimer(0)`), then run the loop. -/
def doFingerprint (d : GenericDevicePlugin) (events : List LoopEvent) :
    List LoopOutput :=
  .armed 0 :: loopRun d.fingerprintPeriod d events

/-- The sequence of timer-arming delays in a loop trace. -/
def armedDelays (outs : List LoopOutput) : List Nat :=
  outs.filterMap fun o =>
    match o with
    | .armed k => some k
    | _ => none

/-- The sequence of responses emitted in a loop trace. -/
def emittedSnapshots (outs : List LoopOutput) : List FingerprintResponse :=
  outs.filterMap fun o =>
    match o with
    | .emit r => some r
    | _ => none

/-- The outputs of a cancellation-free run: what the loop does on the
ticks before the context is done. -/
def ticksOutput (period : Nat) :
    GenericDevicePlugin → List LoopEvent → List LoopOutput
  | _, [] => []
  | _, .ctxDone :: _ => []
  | d, .tick :: rest =>
    let s := writeFingerprintToChannel d
    .armed period :: (s.2.map .emit ++ ticksOutput period s.1 rest)

/-- Total number of device summaries in a response, across all groups. -/
def totalDevices (resp : FingerprintResponse) : Nat :=
  (resp.Devices.map fun og =>
    match og with
    | none => 0
    | some g => g.Devices.length).sum

/-- All device IDs appearing in a response, across all groups. -/
def snapshotIDs (resp : FingerprintResponse) : List String :=
  resp.Devices.flatMap fun og =>
    match og with
    | none => []
    | some g => g.Devices.map (·.ID)

/-- The bucket component of the grouping loop, taken on its own. -/
def mkBuckets (ds : List fingerprintedDevice) :
    List (String × List fingerprintedDevice) :=
  ds.foldl (fun bs d => groupInsert bs d.device.Model d) []

/-- The cache component of the grouping loop, taken on its own. -/
def mkCache (identified : List (String × GenericDevice))
    (ds : List fingerprintedDevice) : List (String × GenericDevice) :=
  ds.foldl (fun m d => mapInsert m d.ID d.device) identified

/-- Scenario 1 of the spec: one template, count 2. -/
def pScen1 : GenericDevicePlugin :=
  ⟨[⟨"gpu", "nvidia", "a100", 2⟩], [], 5⟩

/-- Scenario 3 of the spec: two templates sharing a Model. -/
def pScen3 : GenericDevicePlugin :=
  ⟨[⟨"t1", "v1", "m", 1⟩, ⟨"t2", "v2", "m", 1⟩], [], 5⟩

/-- Two identical templates: their expansions carry identical IDs. -/
def pDup : GenericDevicePlugin :=
  ⟨[⟨"t", "v", "m", 1⟩, ⟨"t", "v", "m", 1⟩], [], 5⟩

/-- An empty configured-device list. -/
def pEmptyCfg : GenericDevicePlugin :=
  ⟨[], [], 7⟩

/-- A state whose identified-devices cache is already populated. -/
def pCached : GenericDevicePlugin :=
  ⟨[⟨"gpu", "nvidia", "a100", 2⟩],
   [("gpu/nvidia/a100/0", ⟨"gpu", "nvidia", "a100"⟩)], 5⟩

/-- The device group discovered from `pScen1`. -/
def groupScen1 : DeviceGroup :=
  ⟨"nvidia", "gpu", "a100",
   [⟨"gpu/nvidia/a100/0", true, none⟩, ⟨"gpu/nvidia/a100/1", true, none⟩]⟩

/-- The response emitted on the first detection step of `pScen1`. -/
def respScen1 : FingerprintResponse :=
  NewFingerprint [some groupScen1]

/-- The single merged device group discovered from `pScen3`. -/
def groupScen3 : DeviceGroup :=
  ⟨"v1", "t1", "m", [⟨"t1/v1/m/0", true, none⟩, ⟨"t2/v2/m/0", true, none⟩]⟩

/-- The response emitted on the first detection step of `pScen3`. -/
def respScen3 : FingerprintResponse :=
  NewFingerprint [some groupScen3]

/-- Two templates, one with `Count = 0` (treated as one instance). -/
def pMixedCounts : GenericDevicePlugin :=
  ⟨[⟨"gpu", "nvidia", "a100", 2⟩, ⟨"fpga", "xilinx", "u250", 0⟩], [], 5⟩

/-! ## Infrastructure: decimal digits and the `/`-separated ID format -/

theorem string_eq_of_data_eq {s t : String} (h : s.data = t.data) : s = t :=
  String.ext h

theorem digitChar_ne_slash : ∀ n < 10, Nat.digitChar n ≠ '/' := by decide

theorem digitChar_inj_lt : ∀ n < 10, ∀ m < 10,
    Nat.digitChar n = Nat.digitChar m → n = m := by decide

theorem natToDigitsCore_ne_nil :
    ∀ fuel n, n < fuel → natToDigitsCore fuel n ≠ [] := by
  intro fuel
  induction fuel with
  | zero => intro n h; omega
  | succ f ih =>
    intro n _
    simp only [natToDigitsCore]
    split
    · simp
    · simp

theorem slash_not_mem_natToDigitsCore :
    ∀ fuel n, '/' ∉ natToDigitsCore fuel n := by
  intro fuel
  induction fuel with
  | zero => intro n; simp [natToDigitsCore]
  | succ f ih =>
    intro n
    simp only [natToDigitsCore]
    split
    · next h =>
      simp only [List.mem_singleton]
      exact fun hh => digitChar_ne_slash n h hh.symm
    · next h =>
      intro hmem
      rcases List.mem_append.mp hmem with h1 | h1
      · exact ih _ h1
      · have : Nat.digitChar (n % 10) ≠ '/' :=
          digitChar_ne_slash _ (Nat.mod_lt _ (by omega))
        simp at h1
        exact this h1.symm

theorem natToDigitsCore_inj :
    ∀ fuel₁ {n fuel₂ m}, n < fuel₁ → m < fuel₂ →
      natToDigitsCore fuel₁ n = natToDigitsCore fuel₂ m → n = m := by
  intro fuel₁
  induction fuel₁ with
  | zero => intro n _ _ h; omega
  | succ f₁ ih =>
    intro n fuel₂ m hn hm heq
    cases fuel₂ with
    | zero => omega
    | succ f₂ =>
      by_cases h10n : n < 10 <;> by_cases h10m : m < 10
      · simp only [natToDigitsCore, if_pos h10n, if_pos h10m,
          List.cons.injEq] at heq
        exact digitChar_inj_lt n h10n m h10m heq.1
      · exfalso
        have hmdiv : m / 10 < m := Nat.div_lt_self (by omega) (by omega)
        simp only [natToDigitsCore, if_pos h10n, if_neg h10m] at heq
        have hne : natToDigitsCore f₂ (m / 10) ≠ [] :=
          natToDigitsCore_ne_nil f₂ (m / 10) (by omega)
        have hlen := congrArg List.length heq
        simp at hlen
        exact hne hlen
      · exfalso
        have hndiv : n / 10 < n := Nat.div_lt_self (by omega) (by omega)
        simp only [natToDigitsCore, if_neg h10n, if_pos h10m] at heq
        have hne : natToDigitsCore f₁ (n / 10) ≠ [] :=
          natToDigitsCore_ne_nil f₁ (n / 10) (by omega)
        have hlen := congrArg List.length heq
        simp at hlen
        exact hne hlen
      · have hndiv : n / 10 < n := Nat.div_lt_self (by omega) (by omega)
        have hmdiv : m / 10 < m := Nat.div_lt_self (by omega) (by omega)
        simp only [natToDigitsCore, if_neg h10n, if_neg h10m] at heq
        have hrev := congrArg List.reverse heq
        simp only [List.reverse_append, List.reverse_cons, List.reverse_nil,
          List.nil_append, List.singleton_append, List.cons.injEq] at hrev
        have hmod : n % 10 = m % 10 :=
          digitChar_inj_lt _ (Nat.mod_lt _ (by omega)) _
            (Nat.mod_lt _ (by omega)) hrev.1
        have hdiveq : natToDigitsCore f₁ (n / 10) = natToDigitsCore f₂ (m / 10) := by
          have := congrArg List.reverse hrev.2
          simpa using this
        have hdiv : n / 10 = m / 10 :=
          ih (show n / 10 < f₁ by omega) (show m / 10 < f₂ by omega) hdiveq
        omega

theorem natToDigits_inj {n m : Nat} (h : natToDigits n = natToDigits m) :
    n = m :=
  natToDigitsCore_inj (n + 1) (by omega) (by omega) h

theorem slash_not_mem_natToDigits (n : Nat) : '/' ∉ natToDigits n :=
  slash_not_mem_natToDigitsCore (n + 1) n

theorem splitFirstSlash :
    ∀ (a : List Char) {b x y}, '/' ∉ a → '/' ∉ b →
      a ++ '/' :: x = b ++ '/' :: y → a = b ∧ x = y := by
  intro a
  induction a with
  | nil =>
    intro b x y _ hb heq
    cases b with
    | nil => simpa using heq
    | cons c b' =>
      exfalso
      simp only [List.nil_append, List.cons_append, List.cons.injEq] at heq
      exact hb (heq.1 ▸ List.mem_cons_self c b')
  | cons c a' ih =>
    intro b x y ha hb heq
    cases b with
    | nil =>
      exfalso
      simp only [List.cons_append, List.nil_append, List.cons.injEq] at heq
      exact ha (heq.1 ▸ List.mem_cons_self c a')
    | cons c' b' =>
      simp only [List.cons_append, List.cons.injEq] at heq
      have ha' : '/' ∉ a' := fun h => ha (List.mem_cons_of_mem c h)
      have hb' : '/' ∉ b' := fun h => hb (List.mem_cons_of_mem c' h)
      obtain ⟨h1, h2⟩ := ih ha' hb' heq.2
      exact ⟨by rw [heq.1, h1], h2⟩

theorem splitLastSlash {p q u v : List Char} (hu : '/' ∉ u) (hv : '/' ∉ v)
    (heq : p ++ '/' :: u = q ++ '/' :: v) : p = q ∧ u = v := by
  have hrev := congrArg List.reverse heq
  simp only [List.reverse_append, List.reverse_cons] at hrev
  have hrev' : u.reverse ++ '/' :: p.reverse = v.reverse ++ '/' :: q.reverse := by
    simpa [List.append_assoc] using hrev
  have hu' : '/' ∉ u.reverse := by simpa using hu
  have hv' : '/' ∉ v.reverse := by simpa using hv
  obtain ⟨h1, h2⟩ := splitFirstSlash u.reverse hu' hv' hrev'
  constructor
  · have := congrArg List.reverse h2; simpa using this
  · have := congrArg List.reverse h1; simpa using this

theorem deviceID_eq_stem (cd : ConfiguredDevice) (i : Nat) :
    deviceID cd i = idStem cd ++ "/" ++ natToString i := rfl

theorem deviceID_data (cd : ConfiguredDevice) (i : Nat) :
    (deviceID cd i).data = (idStem cd).data ++ '/' :: natToDigits i := by
  show ((idStem cd ++ "/") ++ natToString i).data = _
  show ((idStem cd).data ++ ['/']) ++ natToDigits i = _
  simp [List.append_assoc]

theorem deviceID_inj {cd cd' : ConfiguredDevice} {i j : Nat}
    (h : deviceID cd i = deviceID cd' j) : idStem cd = idStem cd' ∧ i = j := by
  have hd := congrArg String.data h
  rw [deviceID_data, deviceID_data] at hd
  obtain ⟨h1, h2⟩ :=
    splitLastSlash (slash_not_mem_natToDigits i) (slash_not_mem_natToDigits j) hd
  exact ⟨string_eq_of_data_eq h1, natToDigits_inj h2⟩

/-! ## Infrastructure: discovery, buckets, and the cache -/

theorem discover_foldl_eq (cds : List ConfiguredDevice) :
    ∀ l₀, cds.foldl (fun acc cd => acc ++ expandDevice cd) l₀ =
      l₀ ++ cds.flatMap expandDevice := by
  induction cds with
  | nil => intro l₀; simp
  | cons cd cds ih => intro l₀; simp [List.foldl_cons, ih, List.append_assoc]

theorem discoverDevices_eq (cds : List ConfiguredDevice) :
    discoverDevices cds = cds.flatMap expandDevice := by
  simpa using discover_foldl_eq cds []

theorem mem_expandDevice {cd : ConfiguredDevice} {x : fingerprintedDevice} :
    x ∈ expandDevice cd ↔ ∃ i, i < (effectiveCount cd).toNat ∧
      x = ⟨deviceID cd i, ⟨cd.«Type», cd.Vendor, cd.Model⟩⟩ := by
  simp only [expandDevice, List.mem_map, List.mem_range]
  constructor
  · rintro ⟨i, hi, rfl⟩; exact ⟨i, hi, rfl⟩
  · rintro ⟨i, hi, rfl⟩; exact ⟨i, hi, rfl⟩

theorem expandDevice_length (cd : ConfiguredDevice) :
    (expandDevice cd).length = (effectiveCount cd).toNat := by
  simp [expandDevice]

theorem registerDevices_eq (identified : List (String × GenericDevice))
    (ds : List fingerprintedDevice) :
    registerDevices identified ds = (mkBuckets ds, mkCache identified ds) := by
  suffices h : ∀ (ds : List fingerprintedDevice) bs m,
      ds.foldl (fun acc d =>
        (groupInsert acc.1 d.device.Model d, mapInsert acc.2 d.ID d.device)) (bs, m) =
      (ds.foldl (fun bs d => groupInsert bs d.device.Model d) bs,
       ds.foldl (fun m d => mapInsert m d.ID d.device) m) by
    exact h ds [] identified
  intro ds
  induction ds with
  | nil => intro bs m; rfl
  | cons d ds ih => intro bs m; simp [List.foldl_cons, ih]

theorem bucketVal_groupInsert (bs : List (String × List fingerprintedDevice))
    (k : String) (d : fingerprintedDevice) (m : String) :
    bucketVal (groupInsert bs k d) m =
      if m = k then bucketVal bs m ++ [d] else bucketVal bs m := by
  induction bs with
  | nil =>
    by_cases hmk : m = k
    · simp [groupInsert, bucketVal, hmk]
    · have hkm : ¬k = m := fun h => hmk h.symm
      simp [groupInsert, bucketVal, hmk, hkm]
  | cons b bs ih =>
    by_cases hb : b.1 = k
    · by_cases hmk : m = k
      · simp [groupInsert, bucketVal, hb, hmk]
      · have hkm : ¬k = m := fun h => hmk h.symm
        simp [groupInsert, bucketVal, hb, hmk, hkm]
    · by_cases hbm : b.1 = m
      · have hmk : m ≠ k := fun h => hb (hbm ▸ h)
        simp [groupInsert, bucketVal, hb, hbm, hmk]
      · simp [groupInsert, bucketVal, hb, hbm, ih]

theorem keys_groupInsert_mem (bs : List (String × List fingerprintedDevice))
    (k : String) (d : fingerprintedDevice) (m : String) :
    m ∈ (groupInsert bs k d).map Prod.fst ↔ m ∈ bs.map Prod.fst ∨ m = k := by
  induction bs with
  | nil => simp [groupInsert]
  | cons b bs ih =>
    by_cases hb : b.1 = k
    · subst hb; simp [groupInsert]; tauto
    · simp [groupInsert, hb, ih]; tauto

theorem keys_groupInsert_nodup (bs : List (String × List fingerprintedDevice))
    (k : String) (d : fingerprintedDevice)
    (h : (bs.map Prod.fst).Nodup) : ((groupInsert bs k d).map Prod.fst).Nodup := by
  induction bs with
  | nil => simp [groupInsert]
  | cons b bs ih =>
    simp only [List.map_cons, List.nodup_cons] at h
    by_cases hb : b.1 = k
    · subst hb; simpa [groupInsert] using h
    · simp only [groupInsert, if_neg hb, List.map_cons, List.nodup_cons]
      refine ⟨fun hmem => ?_, ih h.2⟩
      rcases (keys_groupInsert_mem bs k d b.1).mp hmem with h1 | h1
      · exact h.1 h1
      · exact hb h1

theorem bucketVal_foldBuckets (ds : List fingerprintedDevice) :
    ∀ bs m, bucketVal (ds.foldl (fun bs d => groupInsert bs d.device.Model d) bs) m =
      bucketVal bs m ++ ds.filter (fun x => x.device.Model == m) := by
  induction ds with
  | nil => intro bs m; simp
  | cons d ds ih =>
    intro bs m
    simp only [List.foldl_cons, ih, bucketVal_groupInsert]
    by_cases hm : m = d.device.Model
    · subst hm; simp [List.filter_cons, List.append_assoc]
    · have : (d.device.Model == m) = false := by
        simpa using fun h => hm (Eq.symm h)
      simp [List.filter_cons, this, hm]

theorem bucketVal_mkBuckets (ds : List fingerprintedDevice) (m : String) :
    bucketVal (mkBuckets ds) m = ds.filter (fun x => x.device.Model == m) := by
  simpa [bucketVal] using bucketVal_foldBuckets ds [] m

theorem keys_foldBuckets_mem (ds : List fingerprintedDevice) :
    ∀ bs m, m ∈ ((ds.foldl (fun bs d => groupInsert bs d.device.Model d) bs).map Prod.fst) ↔
      m ∈ bs.map Prod.fst ∨ ∃ x ∈ ds, x.device.Model = m := by
  induction ds with
  | nil => intro bs m; simp
  | cons d ds ih =>
    intro bs m
    simp only [List.foldl_cons, ih, keys_groupInsert_mem, List.mem_cons]
    constructor
    · rintro (⟨h1 | h1⟩ | ⟨x, hx, h1⟩)
      · exact Or.inl h1
      · exact Or.inr ⟨d, Or.inl rfl, h1.symm⟩
      · exact Or.inr ⟨x, Or.inr hx, h1⟩
    · rintro (h1 | ⟨x, hx | hx, h1⟩)
      · exact Or.inl (Or.inl h1)
      · exact Or.inl (Or.inr (hx ▸ h1.symm))
      · exact Or.inr ⟨x, hx, h1⟩

theorem keys_mkBuckets_mem (ds : List fingerprintedDevice) (m : String) :
    m ∈ (mkBuckets ds).map Prod.fst ↔ ∃ x ∈ ds, x.device.Model = m := by
  simpa [mkBuckets] using keys_foldBuckets_mem ds [] m

theorem keys_mkBuckets_nodup (ds : List fingerprintedDevice) :
    ((mkBuckets ds).map Prod.fst).Nodup := by
  suffices h : ∀ (ds : List fingerprintedDevice) bs, (bs.map Prod.fst).Nodup →
      (((ds.foldl (fun bs d => groupInsert bs d.device.Model d) bs)).map Prod.fst).Nodup by
    exact h ds [] (by simp)
  intro ds
  induction ds with
  | nil => intro bs h; simpa
  | cons d ds ih =>
    intro bs h
    exact ih _ (keys_groupInsert_nodup bs d.device.Model d h)

theorem bucketVal_of_mem {bs : List (String × List fingerprintedDevice)}
    {b : String × List fingerprintedDevice} (hmem : b ∈ bs)
    (hnd : (bs.map Prod.fst).Nodup) : bucketVal bs b.1 = b.2 := by
  induction bs with
  | nil => cases hmem
  | cons b' bs ih =>
    simp only [List.map_cons, List.nodup_cons] at hnd
    rcases List.mem_cons.mp hmem with h1 | h1
    · subst h1; simp [bucketVal]
    · have hne : b'.1 ≠ b.1 := by
        intro h
        exact hnd.1 (h ▸ List.mem_map_of_mem Prod.fst h1)
      simp [bucketVal, hne, ih h1 hnd.2]

theorem mem_mkBuckets_eq {ds : List fingerprintedDevice}
    {b : String × List fingerprintedDevice} (hmem : b ∈ mkBuckets ds) :
    b.2 = ds.filter (fun x => x.device.Model == b.1) ∧ b.2 ≠ [] := by
  have h1 : bucketVal (mkBuckets ds) b.1 = b.2 :=
    bucketVal_of_mem hmem (keys_mkBuckets_nodup ds)
  have h2 := bucketVal_mkBuckets ds b.1
  have hkey : b.1 ∈ (mkBuckets ds).map Prod.fst := List.mem_map_of_mem Prod.fst hmem
  obtain ⟨x, hx, hxm⟩ := (keys_mkBuckets_mem ds b.1).mp hkey
  refine ⟨h1 ▸ h2, ?_⟩
  rw [← h1, h2]
  have : x ∈ ds.filter (fun x => x.device.Model == b.1) :=
    List.mem_filter.mpr ⟨hx, by simpa using hxm⟩
  exact List.ne_nil_of_mem this


theorem flatten_groupInsert_perm (bs : List (String × List fingerprintedDevice))
    (k : String) (d : fingerprintedDevice) :
    List.Perm ((groupInsert bs k d).flatMap (·.2)) (bs.flatMap (·.2) ++ [d]) := by
  induction bs with
  | nil => simp [groupInsert]
  | cons b bs ih =>
    by_cases hb : b.1 = k
    · simp only [groupInsert, if_pos hb, List.flatMap_cons]
      have h1 : List.Perm ([d] ++ bs.flatMap (·.2)) (bs.flatMap (·.2) ++ [d]) :=
        List.perm_append_comm
      have h2 : List.Perm (b.2 ++ ([d] ++ bs.flatMap (·.2)))
          (b.2 ++ (bs.flatMap (·.2) ++ [d])) := List.Perm.append_left b.2 h1
      have e1 : (b.2 ++ [d]) ++ bs.flatMap (·.2) = b.2 ++ ([d] ++ bs.flatMap (·.2)) := by
        simp [List.append_assoc]
      have e2 : b.2 ++ (bs.flatMap (·.2) ++ [d]) = (b.2 ++ bs.flatMap (·.2)) ++ [d] := by
        simp [List.append_assoc]
      rw [e1, ← e2]
      exact h2
    · simp only [groupInsert, if_neg hb, List.flatMap_cons]
      have h2 : List.Perm (b.2 ++ (groupInsert bs k d).flatMap (·.2))
          (b.2 ++ (bs.flatMap (·.2) ++ [d])) := List.Perm.append_left b.2 ih
      have e2 : b.2 ++ (bs.flatMap (·.2) ++ [d]) = (b.2 ++ bs.flatMap (·.2)) ++ [d] := by
        simp [List.append_assoc]
      rw [← e2]
      exact h2

theorem flatten_foldBuckets_perm (ds : List fingerprintedDevice) :
    ∀ bs, List.Perm
      ((ds.foldl (fun bs d => groupInsert bs d.device.Model d) bs).flatMap (·.2))
      (bs.flatMap (·.2) ++ ds) := by
  induction ds with
  | nil => intro bs; simp
  | cons d ds ih =>
    intro bs
    have h1 := ih (groupInsert bs d.device.Model d)
    have h2 : List.Perm ((groupInsert bs d.device.Model d).flatMap (·.2) ++ ds)
        ((bs.flatMap (·.2) ++ [d]) ++ ds) :=
      List.Perm.append_right ds (flatten_groupInsert_perm bs d.device.Model d)
    have e : (bs.flatMap (·.2) ++ [d]) ++ ds = bs.flatMap (·.2) ++ (d :: ds) := by
      simp [List.append_assoc]
    rw [e] at h2
    exact List.Perm.trans (by simpa using h1) h2

theorem flatten_mkBuckets_perm (ds : List fingerprintedDevice) :
    List.Perm ((mkBuckets ds).flatMap (·.2)) ds := by
  simpa [mkBuckets] using flatten_foldBuckets_perm ds []

theorem mapLookup_mapInsert (m : List (String × GenericDevice))
    (k : String) (v : GenericDevice) (k' : String) :
    mapLookup (mapInsert m k v) k' = if k' = k then some v else mapLookup m k' := by
  induction m with
  | nil =>
    by_cases h : k' = k
    · simp [mapInsert, mapLookup, h]
    · have h' : ¬k = k' := fun hh => h hh.symm
      simp [mapInsert, mapLookup, h, h']
  | cons e m ih =>
    by_cases he : e.1 = k
    · by_cases h : k' = k
      · simp [mapInsert, mapLookup, he, h]
      · have h' : ¬k = k' := fun hh => h hh.symm
        have he' : ¬e.1 = k' := fun hh => h (hh ▸ he ▸ rfl)
        simp [mapInsert, mapLookup, he, h, h', he']
    · by_cases he' : e.1 = k'
      · have h : ¬k' = k := fun hh => he (he' ▸ hh ▸ rfl)
        simp [mapInsert, mapLookup, he, he', h]
      · simp [mapInsert, mapLookup, he, he', ih]

theorem mem_mapInsert {m : List (String × GenericDevice)}
    {k : String} {v : GenericDevice} {e : String × GenericDevice}
    (h : e ∈ mapInsert m k v) : e = (k, v) ∨ e ∈ m := by
  induction m with
  | nil => simpa [mapInsert] using h
  | cons e' m ih =>
    by_cases he : e'.1 = k
    · simp only [mapInsert, if_pos he, List.mem_cons] at h
      rcases h with h | h
      · exact Or.inl h
      · exact Or.inr (List.mem_cons_of_mem e' h)
    · simp only [mapInsert, if_neg he, List.mem_cons] at h
      rcases h with h | h
      · exact Or.inr (h ▸ List.mem_cons_self e' m)
      · rcases ih h with h1 | h1
        · exact Or.inl h1
        · exact Or.inr (List.mem_cons_of_mem e' h1)

theorem mem_mkCache {ds : List fingerprintedDevice} :
    ∀ {m₀ : List (String × GenericDevice)} {e : String × GenericDevice},
      e ∈ mkCache m₀ ds → e ∈ m₀ ∨ ∃ x ∈ ds, e = (x.ID, x.device) := by
  induction ds with
  | nil => intro m₀ e h; exact Or.inl (by simpa [mkCache] using h)
  | cons d ds ih =>
    intro m₀ e h
    have h' : e ∈ mkCache (mapInsert m₀ d.ID d.device) ds := by
      simpa [mkCache] using h
    rcases ih h' with h1 | ⟨x, hx, h1⟩
    · rcases mem_mapInsert h1 with h2 | h2
      · exact Or.inr ⟨d, List.mem_cons_self d ds, h2⟩
      · exact Or.inl h2
    · exact Or.inr ⟨x, List.mem_cons_of_mem d hx, h1⟩

theorem mapLookup_mkCache_isSome (ds : List fingerprintedDevice) :
    ∀ (m₀ : List (String × GenericDevice)) (k : String),
      ((mapLookup m₀ k).isSome ∨ ∃ x ∈ ds, x.ID = k) →
      (mapLookup (mkCache m₀ ds) k).isSome := by
  induction ds with
  | nil =>
    intro m₀ k h
    rcases h with h | ⟨x, hx, _⟩
    · simpa [mkCache] using h
    · cases hx
  | cons d ds ih =>
    intro m₀ k h
    have step : mkCache m₀ (d :: ds) = mkCache (mapInsert m₀ d.ID d.device) ds := by
      simp [mkCache]
    rw [step]
    apply ih
    rcases h with h | ⟨x, hx, hxk⟩
    · left
      rw [mapLookup_mapInsert]
      split
      · simp
      · exact h
    · rcases List.mem_cons.mp hx with h1 | h1
      · left
        rw [mapLookup_mapInsert]
        subst h1
        simp [hxk.symm]
      · exact Or.inr ⟨x, h1, hxk⟩

theorem writeFingerprint_of_empty {d : GenericDevicePlugin}
    (h : d.identifiedDevices = []) :
    writeFingerprintToChannel d =
      ({ d with identifiedDevices :=
          mkCache [] (discoverDevices d.configuredDevices) },
       [NewFingerprint ((mkBuckets (discoverDevices d.configuredDevices)).map fun b =>
          deviceGroupFromFingerprintData b.1 b.2)]) := by
  simp [writeFingerprintToChannel, h, registerDevices_eq]

theorem flatMap_congr_mem {α β : Type} {l : List α} {f g : α → List β}
    (h : ∀ x ∈ l, f x = g x) : l.flatMap f = l.flatMap g := by
  induction l with
  | nil => rfl
  | cons x l ih =>
    simp only [List.flatMap_cons]
    rw [h x (List.mem_cons_self x l), ih fun y hy => h y (List.mem_cons_of_mem x hy)]

theorem ids_expandDevice (cd : ConfiguredDevice) :
    (expandDevice cd).map (·.ID) =
      (List.range (effectiveCount cd).toNat).map (deviceID cd) := by
  simp [expandDevice, List.map_map]

theorem nodup_ids_expandDevice (cd : ConfiguredDevice) :
    ((expandDevice cd).map (·.ID)).Nodup := by
  rw [ids_expandDevice]
  exact List.Nodup.map (fun i j h => (deviceID_inj h).2) (List.nodup_range _)

theorem nodup_ids_discover (cds : List ConfiguredDevice)
    (hstem : (cds.map idStem).Nodup) :
    ((cds.flatMap expandDevice).map (·.ID)).Nodup := by
  induction cds with
  | nil => simp
  | cons cd cds ih =>
    simp only [List.map_cons, List.nodup_cons] at hstem
    simp only [List.flatMap_cons, List.map_append]
    refine List.nodup_append.mpr ⟨nodup_ids_expandDevice cd, ih hstem.2, ?_⟩
    intro a h1 h2
    obtain ⟨x, hx, rfl⟩ := List.mem_map.mp h1
    obtain ⟨y, hy, hyx⟩ := List.mem_map.mp h2
    obtain ⟨cd', hcd', hy'⟩ := List.mem_flatMap.mp hy
    obtain ⟨i, _, rfl⟩ := mem_expandDevice.mp hx
    obtain ⟨j, _, rfl⟩ := mem_expandDevice.mp hy'
    have := (deviceID_inj hyx).1
    exact hstem.1 (this ▸ List.mem_map_of_mem idStem hcd')

theorem snapshotIDs_buckets (ds : List fingerprintedDevice) :
    snapshotIDs (NewFingerprint ((mkBuckets ds).map fun b =>
        deviceGroupFromFingerprintData b.1 b.2)) =
      ((mkBuckets ds).flatMap (·.2)).map (·.ID) := by
  simp only [snapshotIDs, NewFingerprint, List.flatMap_map]
  rw [List.map_flatMap]
  apply flatMap_congr_mem
  intro b hb
  obtain ⟨_, hne⟩ := mem_mkBuckets_eq hb
  match hb2 : b.2 with
  | [] => exact absurd hb2 hne
  | d0 :: tl =>
    simp [deviceGroupFromFingerprintData, List.map_map]

theorem sum_bucket_lengths (ds : List fingerprintedDevice) :
    ((mkBuckets ds).map fun b => b.2.length).sum = ds.length := by
  have hperm := flatten_mkBuckets_perm ds
  have hlen := hperm.length_eq
  rwa [List.length_flatMap] at hlen

theorem length_discover (cds : List ConfiguredDevice) :
    (discoverDevices cds).length =
      (cds.map fun cd => (effectiveCount cd).toNat).sum := by
  rw [discoverDevices_eq, List.length_flatMap]
  congr 1
  apply List.map_congr_left
  intro cd _
  exact expandDevice_length cd

theorem sum_effectiveCount_cast (cds : List ConfiguredDevice)
    (h : ∀ cd ∈ cds, 0 ≤ cd.Count) :
    (((cds.map fun cd => (effectiveCount cd).toNat).sum : Nat) : Int) =
      (cds.map fun cd => max cd.Count 1).sum := by
  induction cds with
  | nil => simp
  | cons cd cds ih =>
    have hcd := h cd (List.mem_cons_self cd cds)
    have hrest := ih fun c hc => h c (List.mem_cons_of_mem cd hc)
    simp only [List.map_cons, List.sum_cons, Nat.cast_add, hrest]
    congr 1
    by_cases hc : cd.Count = 0
    · simp [effectiveCount, hc]
    · have h1 : 1 ≤ cd.Count := by omega
      rw [effectiveCount, if_neg hc, Int.toNat_of_nonneg hcd, max_eq_left h1]

/-! ## Infrastructure: loop traces -/

theorem loopRun_cancel (period : Nat) :
    ∀ (pre : List LoopEvent) (post : List LoopEvent) (d : GenericDevicePlugin),
      LoopEvent.ctxDone ∉ pre →
      loopRun period d (pre ++ .ctxDone :: post) =
        ticksOutput period d pre ++ [.closed] := by
  intro pre
  induction pre with
  | nil => intro post d _; simp [loopRun, ticksOutput]
  | cons e pre ih =>
    intro post d h
    have he : e ≠ LoopEvent.ctxDone := fun hh => h (hh ▸ List.mem_cons_self e pre)
    have h' : LoopEvent.ctxDone ∉ pre := fun hh => h (List.mem_cons_of_mem e hh)
    cases e with
    | ctxDone => exact absurd rfl he
    | tick =>
      simp only [List.cons_append, loopRun, ticksOutput, List.append_eq]
      rw [ih post (writeFingerprintToChannel d).1 h']
      simp [List.append_assoc]

theorem closed_not_mem_ticksOutput (period : Nat) :
    ∀ (events : List LoopEvent) (d : GenericDevicePlugin),
      LoopOutput.closed ∉ ticksOutput period d events := by
  intro events
  induction events with
  | nil => intro d; simp [ticksOutput]
  | cons e events ih =>
    intro d
    cases e with
    | ctxDone => simp [ticksOutput]
    | tick =>
      simp only [ticksOutput, List.mem_cons, List.mem_append]
      push_neg
      refine ⟨by simp, fun hmem => ?_, ih _⟩
      obtain ⟨r, _, hr⟩ := List.mem_map.mp hmem
      cases hr

theorem armedDelays_append (l₁ l₂ : List LoopOutput) :
    armedDelays (l₁ ++ l₂) = armedDelays l₁ ++ armedDelays l₂ := by
  simp [armedDelays, List.filterMap_append]

theorem armedDelays_emits (l : List FingerprintResponse) :
    armedDelays (l.map .emit) = [] := by
  induction l with
  | nil => rfl
  | cons r l ih => simp only [List.map_cons, armedDelays, List.filterMap_cons]; exact ih

theorem armedDelays_loopRun_ticks (period : Nat) :
    ∀ (n : Nat) (d : GenericDevicePlugin),
      armedDelays (loopRun period d (List.replicate n .tick)) =
        List.replicate n period := by
  intro n
  induction n with
  | zero => intro d; rfl
  | succ n ih =>
    intro d
    simp only [List.replicate_succ, loopRun]
    rw [show (LoopOutput.armed period ::
          ((writeFingerprintToChannel d).2.map .emit ++
            loopRun period (writeFingerprintToChannel d).1 (List.replicate n .tick))) =
        [LoopOutput.armed period] ++
          ((writeFingerprintToChannel d).2.map .emit ++
            loopRun period (writeFingerprintToChannel d).1 (List.replicate n .tick)) from rfl]
    rw [armedDelays_append, armedDelays_append, armedDelays_emits, ih]
    simp [armedDelays, List.replicate_succ]

theorem emittedSnapshots_append (l₁ l₂ : List LoopOutput) :
    emittedSnapshots (l₁ ++ l₂) = emittedSnapshots l₁ ++ emittedSnapshots l₂ := by
  simp [emittedSnapshots, List.filterMap_append]

theorem write_empty_config {d : GenericDevicePlugin}
    (hc : d.configuredDevices = []) (h0 : d.identifiedDevices = []) :
    writeFingerprintToChannel d = (d, [NewFingerprint []]) := by
  rw [writeFingerprint_of_empty h0, hc]
  obtain ⟨cds, idv, p⟩ := d
  simp only at hc h0
  subst hc h0
  rfl

theorem write_skip {d : GenericDevicePlugin} (h : d.identifiedDevices ≠ []) :
    writeFingerprintToChannel d = (d, []) := by
  have hlen : (d.identifiedDevices.length == 0) = false := by
    simp only [beq_eq_false_iff_ne, ne_eq, List.length_eq_zero]
    exact h
  simp [writeFingerprintToChannel, hlen]

theorem effectiveCount_toNat_cast {cd : ConfiguredDevice} (h : 0 ≤ cd.Count) :
    (((effectiveCount cd).toNat : Nat) : Int) = max cd.Count 1 := by
  by_cases hc : cd.Count = 0
  · simp [effectiveCount, hc]
  · have h1 : 1 ≤ cd.Count := by omega
    rw [effectiveCount, if_neg hc, Int.toNat_of_nonneg h, max_eq_left h1]

theorem emittedSnapshots_loopRun_empty (period : Nat) :
    ∀ (n : Nat) (d : GenericDevicePlugin), d.configuredDevices = [] →
      d.identifiedDevices = [] →
      emittedSnapshots (loopRun period d (List.replicate n .tick)) =
        List.replicate n (NewFingerprint []) := by
  intro n
  induction n with
  | zero => intro d _ _; rfl
  | succ n ih =>
    intro d hc h0
    simp only [List.replicate_succ, loopRun, write_empty_config hc h0]
    rw [show (LoopOutput.armed period ::
          ([NewFingerprint []].map LoopOutput.emit ++
            loopRun period d (List.replicate n .tick))) =
        [LoopOutput.armed period, LoopOutput.emit (NewFingerprint [])] ++
          loopRun period d (List.replicate n .tick) from rfl]
    rw [emittedSnapshots_append, ih d hc h0]
    rfl

/-! ## Claims -/

/-- C3: whenever the identified-devices cache is non-empty, the detection
step writes no Snapshot to the output stream and leaves the whole plugin
state — in particular the cache — unchanged, so discovery and grouping are
skipped on every invocation that sees a non-empty cache. -/
theorem C3_cache_hit_skips (d : GenericDevicePlugin)
    (h : d.identifiedDevices ≠ []) :
    writeFingerprintToChannel d = (d, []) :=
  write_skip h

theorem C3_cache_hit_skips_witness :
    pCached.identifiedDevices ≠ [] ∧ writeFingerprintToChannel pCached = (pCached, []) :=
  ⟨by decide, C3_cache_hit_skips pCached (by decide)⟩

/-- C9: the detection loop arms its timer with zero delay before the first
detection step (`time.NewTimer(0)`), and after each fire re-arms it with
exactly the configured fingerprint period, for as many ticks as occur. -/
theorem C9_timer_rearm (d : GenericDevicePlugin) (n : Nat) :
    armedDelays (doFingerprint d (List.replicate n .tick)) =
      0 :: List.replicate n d.fingerprintPeriod := by
  simp only [doFingerprint]
  rw [show (LoopOutput.armed 0 ::
        loopRun d.fingerprintPeriod d (List.replicate n .tick)) =
      [LoopOutput.armed 0] ++ loopRun d.fingerprintPeriod d (List.replicate n .tick)
      from rfl]
  rw [armedDelays_append, armedDelays_loopRun_ticks]
  rfl

/-- C7: every device summary contained in any emitted Snapshot has
`Healthy = true` and no `HwLocality`, for every plugin state. -/
theorem C7_always_healthy (d : GenericDevicePlugin) :
    ∀ resp ∈ (writeFingerprintToChannel d).2, ∀ og ∈ resp.Devices,
      ∀ g, og = some g → ∀ dev ∈ g.Devices,
        dev.Healthy = true ∧ dev.HwLocality = none := by
  intro resp hresp og hog g hg dev hdev
  by_cases h0 : d.identifiedDevices = []
  · rw [writeFingerprint_of_empty h0] at hresp
    simp only [List.mem_singleton] at hresp
    subst hresp
    simp only [NewFingerprint] at hog
    obtain ⟨b, _, hbog⟩ := List.mem_map.mp hog
    rw [← hbog] at hg
    match hb2 : b.2 with
    | [] => rw [hb2] at hg; cases hg
    | d0 :: tl =>
      rw [hb2] at hg
      simp only [deviceGroupFromFingerprintData, Option.some.injEq] at hg
      rw [← hg] at hdev
      simp only [List.mem_map] at hdev
      obtain ⟨x, _, hx⟩ := hdev
      rw [← hx]
      exact ⟨rfl, rfl⟩
  · rw [write_skip h0] at hresp
    cases hresp

theorem C7_always_healthy_witness :
    respScen1 ∈ (writeFingerprintToChannel pScen1).2 ∧
    (some groupScen1 : Option DeviceGroup) ∈ respScen1.Devices ∧
    (⟨"gpu/nvidia/a100/0", true, none⟩ : Device) ∈ groupScen1.Devices ∧
    ((⟨"gpu/nvidia/a100/0", true, none⟩ : Device).Healthy = true ∧
     (⟨"gpu/nvidia/a100/0", true, none⟩ : Device).HwLocality = none) :=
  ⟨by decide, by decide, by decide,
   C7_always_healthy pScen1 respScen1 (by decide) (some groupScen1) (by decide)
     groupScen1 rfl ⟨"gpu/nvidia/a100/0", true, none⟩ (by decide)⟩

/-- C6: the zero-device branch of `deviceGroupFromFingerprintData` returns
no group, and every group contained in an emitted Snapshot has at least one
member device — groups of zero members are never emitted, because a bucket
only exists once a device has been inserted into it. -/
theorem C6_no_empty_groups :
    (∀ name, deviceGroupFromFingerprintData name [] = none) ∧
    ∀ (d : GenericDevicePlugin), ∀ resp ∈ (writeFingerprintToChannel d).2,
      ∀ og ∈ resp.Devices, ∃ g, og = some g ∧ g.Devices ≠ [] := by
  refine ⟨fun name => rfl, ?_⟩
  intro d resp hresp og hog
  by_cases h0 : d.identifiedDevices = []
  · rw [writeFingerprint_of_empty h0] at hresp
    simp only [List.mem_singleton] at hresp
    subst hresp
    simp only [NewFingerprint] at hog
    obtain ⟨b, hb, hbog⟩ := List.mem_map.mp hog
    obtain ⟨_, hne⟩ := mem_mkBuckets_eq hb
    match hb2 : b.2 with
    | [] => exact absurd hb2 hne
    | d0 :: tl =>
      rw [hb2] at hbog
      refine ⟨_, hbog.symm, ?_⟩
      simp [deviceGroupFromFingerprintData]
  · rw [write_skip h0] at hresp
    cases hresp

theorem C6_no_empty_groups_witness :
    ∃ g, (some groupScen1 : Option DeviceGroup) = some g ∧ g.Devices ≠ [] :=
  C6_no_empty_groups.2 pScen1 respScen1 (by decide) (some groupScen1) (by decide)

/-- C1: starting from an empty identified-devices cache, with all
configured counts non-negative, the discovery step emits exactly one
Snapshot whose total number of devices equals the sum over all configured
entries of `max(Count, 1)` — in particular a `Count = 0` entry contributes
exactly one device (`max(0, 1) = 1`). -/
theorem C1_device_count (d : GenericDevicePlugin)
    (h0 : d.identifiedDevices = [])
    (hc : ∀ cd ∈ d.configuredDevices, 0 ≤ cd.Count) :
    ∃ resp, (writeFingerprintToChannel d).2 = [resp] ∧
      (totalDevices resp : Int) =
        (d.configuredDevices.map fun cd => max cd.Count 1).sum := by
  rw [writeFingerprint_of_empty h0]
  refine ⟨_, rfl, ?_⟩
  have h1 : totalDevices (NewFingerprint
      ((mkBuckets (discoverDevices d.configuredDevices)).map fun b =>
        deviceGroupFromFingerprintData b.1 b.2)) =
      ((mkBuckets (discoverDevices d.configuredDevices)).map fun b =>
        b.2.length).sum := by
    simp only [totalDevices, NewFingerprint, List.map_map]
    congr 1
    apply List.map_congr_left
    intro b hb
    obtain ⟨_, hne⟩ := mem_mkBuckets_eq hb
    match hb2 : b.2 with
    | [] => exact absurd hb2 hne
    | d0 :: tl =>
      simp only [Function.comp_apply, hb2, deviceGroupFromFingerprintData]
      simp
  rw [h1, sum_bucket_lengths, length_discover,
    sum_effectiveCount_cast _ hc]

theorem C1_device_count_witness :
    pMixedCounts.identifiedDevices = [] ∧
    (∀ cd ∈ pMixedCounts.configuredDevices, 0 ≤ cd.Count) ∧
    ∃ resp, (writeFingerprintToChannel pMixedCounts).2 = [resp] ∧
      (totalDevices resp : Int) =
        (pMixedCounts.configuredDevices.map fun cd => max cd.Count 1).sum :=
  ⟨rfl, by decide, C1_device_count pMixedCounts rfl (by decide)⟩

/-- C4: every emitted group is named by the Model shared by all of its
member devices, and its `Vendor`/`Type` are copied from the first device
inserted into that Model bucket (the head of the filtered discovery list);
Vendor/Type of later members sharing the Model are dropped.  For spec
Scenario 3 the single group named `"m"` takes Vendor `"v1"` and Type
`"t1"` from the first-inserted member (the first configured entry). -/
theorem C4_group_vendor_type :
    (∀ (d : GenericDevicePlugin), d.identifiedDevices = [] →
      ∀ resp ∈ (writeFingerprintToChannel d).2, ∀ og ∈ resp.Devices,
        ∃ g x0 xs, og = some g ∧
          (discoverDevices d.configuredDevices).filter
            (fun x => x.device.Model == g.Name) = x0 :: xs ∧
          g.Vendor = x0.device.Vendor ∧ g.«Type» = x0.device.«Type» ∧
          ∀ x ∈ x0 :: xs, x.device.Model = g.Name) ∧
    (writeFingerprintToChannel pScen3).2 = [respScen3] := by
  constructor
  · intro d h0 resp hresp og hog
    rw [writeFingerprint_of_empty h0] at hresp
    simp only [List.mem_singleton] at hresp
    subst hresp
    simp only [NewFingerprint] at hog
    obtain ⟨b, hb, hbog⟩ := List.mem_map.mp hog
    obtain ⟨hfilter, hne⟩ := mem_mkBuckets_eq hb
    match hb2 : b.2 with
    | [] => exact absurd hb2 hne
    | d0 :: tl =>
      rw [hb2] at hfilter hbog
      refine ⟨⟨d0.device.Vendor, d0.device.«Type», b.1,
        (d0 :: tl).map fun dev => ⟨dev.ID, true, none⟩⟩, d0, tl,
        ?_, ?_, rfl, rfl, ?_⟩
      · rw [← hbog]
        rfl
      · exact hfilter.symm
      · intro x hx
        rw [hfilter] at hx
        have := (List.mem_filter.mp hx).2
        simpa using this
  · decide

theorem C4_group_vendor_type_witness :
    pScen3.identifiedDevices = [] ∧
    ∃ g x0 xs, (some groupScen3 : Option DeviceGroup) = some g ∧
      (discoverDevices pScen3.configuredDevices).filter
        (fun x => x.device.Model == g.Name) = x0 :: xs ∧
      g.Vendor = x0.device.Vendor ∧ g.«Type» = x0.device.«Type» ∧
      ∀ x ∈ x0 :: xs, x.device.Model = g.Name :=
  ⟨rfl, C4_group_vendor_type.1 pScen3 rfl respScen3 (by decide)
    (some groupScen3) (by decide)⟩

/-- C5 counterexample: with an empty configured list the cache stays empty,
so the empty Snapshot is emitted again on the second tick — two ticks
produce two emissions, refuting "emitted exactly once over the lifetime of
the detection loop". -/
theorem C5_empty_config_counterexample :
    emittedSnapshots (doFingerprint pEmptyCfg [.tick, .tick]) =
      [NewFingerprint [], NewFingerprint []] ∧
    (emittedSnapshots (doFingerprint pEmptyCfg [.tick, .tick])).length ≠ 1 := by
  constructor
  · decide
  · decide

/-- C5 (amended): for an empty configured-device list every detection step
produces a Snapshot with zero DeviceGroups (never suppressed), and since
the identified-devices cache remains empty, that empty Snapshot is
re-emitted on every tick of the detection loop rather than exactly once. -/
theorem C5_empty_config_reemits (d : GenericDevicePlugin)
    (hc : d.configuredDevices = []) (h0 : d.identifiedDevices = [])
    (n : Nat) :
    emittedSnapshots (doFingerprint d (List.replicate n .tick)) =
      List.replicate n (NewFingerprint []) := by
  simp only [doFingerprint]
  rw [show (LoopOutput.armed 0 ::
        loopRun d.fingerprintPeriod d (List.replicate n .tick)) =
      [LoopOutput.armed 0] ++ loopRun d.fingerprintPeriod d (List.replicate n .tick)
      from rfl]
  rw [emittedSnapshots_append, emittedSnapshots_loopRun_empty _ n d hc h0]
  rfl

theorem C5_empty_config_reemits_witness :
    pEmptyCfg.configuredDevices = [] ∧ pEmptyCfg.identifiedDevices = [] ∧
    emittedSnapshots (doFingerprint pEmptyCfg (List.replicate 3 .tick)) =
      List.replicate 3 (NewFingerprint []) :=
  ⟨rfl, rfl, C5_empty_config_reemits pEmptyCfg rfl rfl 3⟩

/-- C8: when the cancellation signal is the first `select` outcome after
some cancellation-free prefix of ticks, the loop emits exactly the outputs
of those completed ticks, then closes the output stream as its final
action; nothing at all (in particular no Snapshot and no error) follows
the close, and every in-flight detection step ran to completion before the
cancellation was observed. -/
theorem C8_graceful_close (d : GenericDevicePlugin) (pre post : List LoopEvent)
    (h : LoopEvent.ctxDone ∉ pre) :
    doFingerprint d (pre ++ .ctxDone :: post) =
      (.armed 0 :: ticksOutput d.fingerprintPeriod d pre) ++ [.closed] ∧
    LoopOutput.closed ∉
      (.armed 0 : LoopOutput) :: ticksOutput d.fingerprintPeriod d pre := by
  constructor
  · simp only [doFingerprint]
    rw [loopRun_cancel d.fingerprintPeriod pre post d h]
    rfl
  · intro hmem
    rcases List.mem_cons.mp hmem with h1 | h1
    · cases h1
    · exact closed_not_mem_ticksOutput _ pre d h1

theorem C8_graceful_close_witness :
    (LoopEvent.ctxDone ∉ [LoopEvent.tick]) ∧
    (doFingerprint pScen1 ([LoopEvent.tick] ++ .ctxDone :: [LoopEvent.tick]) =
        (.armed 0 :: ticksOutput pScen1.fingerprintPeriod pScen1 [LoopEvent.tick])
          ++ [.closed] ∧
      LoopOutput.closed ∉ (.armed 0 : LoopOutput) ::
        ticksOutput pScen1.fingerprintPeriod pScen1 [LoopEvent.tick]) :=
  ⟨by decide, C8_graceful_close pScen1 [LoopEvent.tick] [LoopEvent.tick] (by decide)⟩

/-- C2 counterexample: two identical configured templates both expand to
the ID `"t/v/m/0"`, so the IDs produced in one discovery pass are not
pairwise distinct even though every Count is non-negative. -/
theorem C2_duplicate_template_ids :
    ((writeFingerprintToChannel pDup).2.flatMap snapshotIDs) =
      ["t/v/m/0", "t/v/m/0"] ∧
    ¬ List.Nodup ((writeFingerprintToChannel pDup).2.flatMap snapshotIDs) := by
  constructor
  · decide
  · decide

/-- C2 (amended): with an empty cache and non-negative counts, every ID in
the emitted Snapshot is `Type/Vendor/Model/index` for its originating
template with `index < max(Count, 1)`; and provided the configured
templates' `Type/Vendor/Model` stem strings are pairwise distinct (which
duplicate templates violate), all IDs of the pass are pairwise distinct. -/
theorem C2_ids_unique (d : GenericDevicePlugin)
    (h0 : d.identifiedDevices = [])
    (hc : ∀ cd ∈ d.configuredDevices, 0 ≤ cd.Count)
    (hstem : (d.configuredDevices.map idStem).Nodup) :
    ∃ resp, (writeFingerprintToChannel d).2 = [resp] ∧
      (snapshotIDs resp).Nodup ∧
      ∀ id ∈ snapshotIDs resp, ∃ cd ∈ d.configuredDevices, ∃ i : Nat,
        (i : Int) < max cd.Count 1 ∧ id = deviceID cd i := by
  rw [writeFingerprint_of_empty h0]
  refine ⟨_, rfl, ?_, ?_⟩
  · rw [snapshotIDs_buckets]
    have hperm :=
      (flatten_mkBuckets_perm (discoverDevices d.configuredDevices)).map (·.ID)
    rw [hperm.nodup_iff, discoverDevices_eq]
    exact nodup_ids_discover _ hstem
  · intro id hid
    rw [snapshotIDs_buckets] at hid
    have hperm :=
      (flatten_mkBuckets_perm (discoverDevices d.configuredDevices)).map (·.ID)
    have hid' : id ∈ (discoverDevices d.configuredDevices).map (·.ID) :=
      hperm.mem_iff.mp hid
    obtain ⟨x, hx, rfl⟩ := List.mem_map.mp hid'
    rw [discoverDevices_eq] at hx
    obtain ⟨cd, hcd, hx'⟩ := List.mem_flatMap.mp hx
    obtain ⟨i, hi, rfl⟩ := mem_expandDevice.mp hx'
    refine ⟨cd, hcd, i, ?_, rfl⟩
    have hcast := effectiveCount_toNat_cast (hc cd hcd)
    have : (i : Int) < ((effectiveCount cd).toNat : Int) := by exact_mod_cast hi
    rwa [hcast] at this

theorem C2_ids_unique_witness :
    pMixedCounts.identifiedDevices = [] ∧
    (∀ cd ∈ pMixedCounts.configuredDevices, 0 ≤ cd.Count) ∧
    (pMixedCounts.configuredDevices.map idStem).Nodup ∧
    ∃ resp, (writeFingerprintToChannel pMixedCounts).2 = [resp] ∧
      (snapshotIDs resp).Nodup ∧
      ∀ id ∈ snapshotIDs resp, ∃ cd ∈ pMixedCounts.configuredDevices,
        ∃ i : Nat, (i : Int) < max cd.Count 1 ∧ id = deviceID cd i :=
  ⟨rfl, by decide, by decide,
   C2_ids_unique pMixedCounts rfl (by decide) (by decide)⟩

/-- C10: in the Snapshot produced from an empty cache, each group's member
list is exactly the discovery-order sublist of devices carrying its Model
(devices of earlier configured entries precede later ones, and indices
increase within one entry), and the updated identified-devices cache
contains exactly template-shaped records: every entry comes from some
configured template (its key the generated ID, its value the template's
`Type`/`Vendor`/`Model`), and every generated ID is present as a key. -/
theorem C10_group_order_and_cache (d : GenericDevicePlugin)
    (h0 : d.identifiedDevices = []) :
    ∃ resp, (writeFingerprintToChannel d).2 = [resp] ∧
      (∀ og ∈ resp.Devices, ∃ g, og = some g ∧
        g.Devices = ((discoverDevices d.configuredDevices).filter
          (fun x => x.device.Model == g.Name)).map
            fun dev => ⟨dev.ID, true, none⟩) ∧
      (∀ e ∈ (writeFingerprintToChannel d).1.identifiedDevices,
        ∃ cd ∈ d.configuredDevices, ∃ i, i < (effectiveCount cd).toNat ∧
          e.1 = deviceID cd i ∧ e.2 = ⟨cd.«Type», cd.Vendor, cd.Model⟩) ∧
      ∀ x ∈ discoverDevices d.configuredDevices,
        (mapLookup (writeFingerprintToChannel d).1.identifiedDevices x.ID).isSome := by
  rw [writeFingerprint_of_empty h0]
  refine ⟨_, rfl, ?_, ?_, ?_⟩
  · intro og hog
    simp only [NewFingerprint] at hog
    obtain ⟨b, hb, hbog⟩ := List.mem_map.mp hog
    obtain ⟨hfilter, hne⟩ := mem_mkBuckets_eq hb
    match hb2 : b.2 with
    | [] => exact absurd hb2 hne
    | d0 :: tl =>
      rw [hb2] at hbog hfilter
      refine ⟨⟨d0.device.Vendor, d0.device.«Type», b.1,
        (d0 :: tl).map fun dev => ⟨dev.ID, true, none⟩⟩, ?_, ?_⟩
      · rw [← hbog]
        rfl
      · show _ = ((discoverDevices d.configuredDevices).filter
          (fun x => x.device.Model == b.1)).map fun dev => ⟨dev.ID, true, none⟩
        rw [← hfilter]
  · intro e he
    dsimp only at he
    rcases mem_mkCache he with h1 | ⟨x, hx, rfl⟩
    · cases h1
    · rw [discoverDevices_eq] at hx
      obtain ⟨cd, hcd, hx'⟩ := List.mem_flatMap.mp hx
      obtain ⟨i, hi, rfl⟩ := mem_expandDevice.mp hx'
      exact ⟨cd, hcd, i, hi, rfl, rfl⟩
  · intro x hx
    dsimp only
    exact mapLookup_mkCache_isSome (discoverDevices d.configuredDevices) [] x.ID
      (Or.inr ⟨x, hx, rfl⟩)

theorem C10_group_order_and_cache_witness :
    pScen3.identifiedDevices = [] ∧
    ∃ resp, (writeFingerprintToChannel pScen3).2 = [resp] ∧
      (∀ og ∈ resp.Devices, ∃ g, og = some g ∧
        g.Devices = ((discoverDevices pScen3.configuredDevices).filter
          (fun x => x.device.Model == g.Name)).map
            fun dev => ⟨dev.ID, true, none⟩) ∧
      (∀ e ∈ (writeFingerprintToChannel pScen3).1.identifiedDevices,
        ∃ cd ∈ pScen3.configuredDevices, ∃ i, i < (effectiveCount cd).toNat ∧
          e.1 = deviceID cd i ∧ e.2 = ⟨cd.«Type», cd.Vendor, cd.Model⟩) ∧
      ∀ x ∈ discoverDevices pScen3.configuredDevices,
        (mapLookup (writeFingerprintToChannel pScen3).1.identifiedDevices x.ID).isSome :=
  ⟨rfl, C10_group_order_and_cache pScen3 rfl⟩
